import Mathlib

/-!
Verification development for the streamrip stream-acquisition core
(`streamrip/utils.py`).  Byte strings are modelled as `List Nat` (each
element a byte value), Python `None`/optional values as `Option`, and
Python exceptions as an explicit error type threaded through `Except`.
External cryptographic primitives (the MD5 digest, the Blowfish and AES
block functions, base64 decoding) are parameters of the definitions that
use them; the cipher *modes* (CBC, CTR) are embedded explicitly, following
the semantics of the library calls made by the source.
-/

namespace Streamrip

/-- Byte strings are lists of natural numbers (each intended below 256). -/
abbrev Bytes := List Nat

/-- Fuel-driven worker for `chunksPos`; the fuel is an upper bound on the
list length, so the zero-fuel non-nil arm is never reached from
`chunksPos`. -/
def chunksGo (n : Nat) : Nat → List α → List (List α)
  | _, [] => []
  | 0, l => [l]
  | fuel + 1, a :: t =>
    ((a :: t).take (n + 1)) :: chunksGo n fuel ((a :: t).drop (n + 1))

/-- Split a list into consecutive chunks of size n+1; the last chunk may be
shorter, and no chunk is empty. -/
def chunksPos (n : Nat) (l : List α) : List (List α) :=
  chunksGo n l.length l

/-- Chunk-shaped lists of blocks: every block is nonempty and at most n+1
long, and every block but the last is exactly n+1 long.  This is the shape
`chunksPos n` produces. -/
def chunkShaped (n : Nat) : List (List α) → Prop
  | [] => True
  | b :: bs =>
    b ≠ [] ∧ b.length ≤ n + 1 ∧
      (bs = [] ∨ (b.length = n + 1 ∧ chunkShaped n bs))

/-- Pointwise XOR of two byte strings, truncating to the shorter one. -/
def zipXor (a b : Bytes) : Bytes := List.zipWith (fun x y => x ^^^ y) a b

/-- Three-list zipWith, mirroring Python's three-argument zip (truncates to
the shortest input). -/
def zipWith3 (f : α → β → γ → δ) : List α → List β → List γ → List δ
  | a :: as, b :: bs, c :: cs => f a b c :: zipWith3 f as bs cs
  | _, _, _ => []

/-- UTF-8 encoding of a single code point, as performed by Python's
`str.encode()` on one character. -/
def utf8Encode1 (c : Nat) : Bytes :=
  if c < 0x80 then [c]
  else if c < 0x800 then [0xC0 + c / 0x40, 0x80 + c % 0x40]
  else if c < 0x10000 then
    [0xE0 + c / 0x1000, 0x80 + c / 0x40 % 0x40, 0x80 + c % 0x40]
  else
    [0xF0 + c / 0x40000, 0x80 + c / 0x1000 % 0x40, 0x80 + c / 0x40 % 0x40,
      0x80 + c % 0x40]

/-- UTF-8 encoding of a sequence of code points (Python `str.encode()`). -/
def strEncode (codes : List Nat) : Bytes := (codes.map utf8Encode1).flatten

/-- CBC-mode decryption over a list of ciphertext blocks: each plaintext
block is the block decryption XORed with the previous ciphertext block
(the IV for the first block). `D` is the raw block-decryption primitive. -/
def cbcDecryptBlocks (D : Bytes → Bytes) : Bytes → List Bytes → List Bytes
  | _, [] => []
  | prev, c :: cs => zipXor (D c) prev :: cbcDecryptBlocks D c cs

/-- CBC-mode decryption of a byte string with block size n+1, as performed
by a library cipher object created with the given IV. -/
def cbcDecrypt (D : Bytes → Bytes) (n : Nat) (iv data : Bytes) : Bytes :=
  (cbcDecryptBlocks D iv (chunksPos n data)).flatten

/-- CBC-mode encryption over a list of plaintext blocks: each ciphertext
block is the block encryption of the plaintext block XORed with the
previous ciphertext block (the IV for the first block). -/
def cbcEncryptBlocks (E : Bytes → Bytes) : Bytes → List Bytes → List Bytes
  | _, [] => []
  | prev, b :: bs =>
    let c := E (zipXor b prev)
    c :: cbcEncryptBlocks E c bs

/-- CBC-mode encryption of a byte string with block size n+1.  Modelled
from the spec: the inverse construction used to state the PostDecryptor
round trip (the source only ever decrypts). -/
def cbcEncrypt (E : Bytes → Bytes) (n : Nat) (iv data : Bytes) : Bytes :=
  (cbcEncryptBlocks E iv (chunksPos n data)).flatten

/-- Big-endian 8-byte encoding of a counter value, the 64-bit counter part
of a CTR-mode counter block. -/
def be64 (c : Nat) : Bytes :=
  [c / 2 ^ 56 % 256, c / 2 ^ 48 % 256, c / 2 ^ 40 % 256, c / 2 ^ 32 % 256,
    c / 2 ^ 24 % 256, c / 2 ^ 16 % 256, c / 2 ^ 8 % 256, c % 256]

/-- CTR-mode keystream application over a list of data blocks: block i is
XORed with the block encryption of (nonce ++ 64-bit big-endian counter),
the counter incrementing from its starting value. -/
def ctrBlocks (E : Bytes → Bytes) (nonce : Bytes) : Nat → List Bytes → List Bytes
  | _, [] => []
  | c, b :: bs => zipXor b (E (nonce ++ be64 c)) :: ctrBlocks E nonce (c + 1) bs

/-- CTR mode over a byte string with 16-byte blocks, with the given 8-byte
nonce as the fixed leading half of every counter block and initial counter
value 0; encryption and decryption are the same operation. -/
def ctrCrypt (E : Bytes → Bytes) (nonce data : Bytes) : Bytes :=
  (ctrBlocks E nonce 0 (chunksPos 15 data)).flatten

/-- Python exceptions that the embedded code can raise. -/
inductive PyError
  | keyError : PyError
  | nonStreamable : Option String → PyError
  | invalidQuality : Int → PyError
  | invalidSourceError : String → PyError
  deriving DecidableEq, Repr

/-- Provider-specific quality codes: an int, a string token, or an
(int, label) pair, as stored in the source's quality map. -/
inductive QualityValue
  | int : Nat → QualityValue
  | str : String → QualityValue
  | pair : Nat → String → QualityValue
  deriving DecidableEq, Repr

/-- The source's static quality table, a dict of dicts keyed first by
provider tag and then by the provider-local quality id. -/
def QUALITY_MAP (source : String) (quality_id : Int) : Option QualityValue :=
  if source = "qobuz" then
    if quality_id = 1 then some (.int 5)
    else if quality_id = 2 then some (.int 6)
    else if quality_id = 3 then some (.int 7)
    else if quality_id = 4 then some (.int 27)
    else none
  else if source = "deezer" then
    if quality_id = 0 then some (.pair 9 "MP3_128")
    else if quality_id = 1 then some (.pair 3 "MP3_320")
    else if quality_id = 2 then some (.pair 1 "FLAC")
    else none
  else if source = "tidal" then
    if quality_id = 0 then some (.str "LOW")
    else if quality_id = 1 then some (.str "HIGH")
    else if quality_id = 2 then some (.str "LOSSLESS")
    else if quality_id = 3 then some (.str "HI_RES")
    else none
  else none

/-- Embedding of `get_quality`: a two-level dict lookup; a missing provider
or missing id raises the (unclassified) Python KeyError. -/
def get_quality (quality_id : Int) (source : String) :
    Except PyError QualityValue :=
  match QUALITY_MAP source quality_id with
  | some v => .ok v
  | none => .error .keyError

/-- Embedding of `get_quality_id`: maps optional bit depth and sampling
rate to the universal quality id; any unhandled bit depth falls off the
end of the function and returns Python None. -/
def get_quality_id (bit_depth : Option Int) (sampling_rate : Option Int) :
    Option Int :=
  match bit_depth, sampling_rate with
  | none, _ => some 1
  | _, none => some 1
  | some bd, some sr =>
    if bd = 16 then some 2
    else if bd = 24 then
      if sr ≤ 96 then some 3 else some 4
    else none

/-- Embedding of `get_stats_from_quality`: inverse table from a universal
quality id to optional (bit depth, sampling rate). -/
def get_stats_from_quality (quality_id : Int) :
    Except PyError (Option Int × Option Int) :=
  if quality_id ≤ 1 then .ok (none, none)
  else if quality_id = 2 then .ok (some 16, some 44100)
  else if quality_id = 3 then .ok (some 24, some 96000)
  else if quality_id = 4 then .ok (some 24, some 192000)
  else .error (.invalidQuality quality_id)

/-- Embedding of `ext`: audio file extension from quality id and source. -/
def ext (quality : Int) (source : String) : String :=
  if quality ≤ 1 then
    if source = "tidal" then ".m4a" else ".mp3"
  else ".flac"

/-- Embedding of `get_container`: file container from quality id and
source. -/
def get_container (quality : Int) (source : String) : String :=
  if 2 ≤ quality then "FLAC"
  else if source = "tidal" then "AAC"
  else "MP3"

/-- Embedding of the `DownloadStream.is_encrypted` regex: a search for the
pattern m(obile|edia) between slashes anywhere in the URL succeeds exactly
when the URL contains "/mobile/" or "/media/" as a substring. -/
def is_encrypted (url : String) : Bool :=
  decide (List.IsInfix "/mobile/".data url.data) ||
    decide (List.IsInfix "/media/".data url.data)

/-- Embedding of `DownloadStream._generate_blowfish_key`.  `md5hex` is the
external MD5 hex-digest primitive (lowercase hex string of the hash of the
UTF-8 encoded track id).  The first and second 16 hex characters are
zipped with the fixed 16-character secret, each triple of character codes
is XORed, and the resulting code points are re-encoded as bytes. -/
def generate_blowfish_key (md5hex : String → String) (track_id : String) :
    Bytes :=
  let SECRET := "g4el58wc0zvf9na1"
  let h := (md5hex track_id).data
  strEncode
    (zipWith3 (fun a b c => a.toNat ^^^ b.toNat ^^^ c.toNat)
      (h.take 16) (h.drop 16) SECRET.data)

/-- Embedding of `DownloadStream._decrypt_chunk`: a fresh Blowfish-CBC
cipher with the fixed 8-byte IV 0,1,2,3,4,5,6,7 decrypts the data.
`bfDec` is the external raw Blowfish block-decryption primitive, keyed by
its first argument; the CBC chaining (block size 8) is explicit. -/
def decrypt_chunk (bfDec : Bytes → Bytes → Bytes) (key data : Bytes) :
    Bytes :=
  cbcDecrypt (bfDec key) 7 [0, 1, 2, 3, 4, 5, 6, 7] data

/-- Embedding of the zero-length check in `DownloadStream.__init__`: a
declared content length of 0 raises a bare NonStreamable (no message)
before any iteration can start. -/
def downloadStream_init (file_size : Nat) : Except PyError Unit :=
  if file_size = 0 then .error (.nonStreamable none) else .ok ()

/-- Embedding of `DownloadStream.__iter__` applied to the raw chunk
sequence delivered by the transport.  When the source is "deezer" and the
resolved URL matches the obfuscation marker, every chunk of length at
least 2048 has its first 2048 bytes decrypted by a fresh per-chunk cipher
and keeps its tail unchanged, and shorter chunks pass through; otherwise
the raw chunks are returned unchanged. -/
def downloadStream_iter (bfDec : Bytes → Bytes → Bytes)
    (md5hex : String → String) (source : Option String) (url : String)
    (item_id : String) (chunks : List Bytes) : List Bytes :=
  if source = some "deezer" ∧ is_encrypted url then
    chunks.map fun chunk =>
      if 2048 ≤ chunk.length then
        decrypt_chunk bfDec (generate_blowfish_key md5hex item_id)
            (chunk.take 2048) ++ chunk.drop 2048
      else chunk
  else chunks

/-- Boolean suffix test on strings, the semantics of Python's
`str.endswith`. -/
def endsWithB (s suff : String) : Bool :=
  decide (List.IsSuffix suff.data s.data)

/-- Embedding of `tqdm_download`.  The response is abstracted as its
declared content length, its body's parse (none when the body is not JSON,
some none when it is JSON without an "error" field, some (some m) when it
carries error text m), the chunks delivered before any transport failure,
and an optional failure occurring during the write loop.  The result is
the final file content at the destination path (none when no file exists
there) paired with the propagated error, starting from no pre-existing
file. -/
def tqdm_download (url : String) (content_length : Nat)
    (body : Option (Option String)) (chunks : List Bytes)
    (failure : Option PyError) : Option Bytes × Option PyError :=
  if decide (content_length < 1000) && !endsWithB url "jpg"
      && !endsWithB url "png" then
    match body with
    | some (some msg) => (none, some (.nonStreamable (some msg)))
    | some none => (none, some .keyError)
    | none => (none, some (.nonStreamable (some "Resource not found.")))
  else
    match failure with
    | some e => (none, some e)
    | none => (some chunks.flatten, none)

/-- The fixed base64-encoded master key embedded in `decrypt_mqa_file`. -/
def MASTER_KEY_B64 : String := "UIlTTEMmmLfGowo/UC60x2H45W6MdGgTRfo/umg4754="

/-- Embedding of `decrypt_mqa_file`.  `aesDec` and `aesEnc` are the
external raw AES block primitives (keyed by their first argument) and
`b64decode` the external base64 decoder.  The security token is decoded,
split into a 16-byte IV and a ciphertext, the ciphertext is AES-CBC
decrypted under the decoded master key, the result is split into a 16-byte
content key and an 8-byte nonce, and the file content is decrypted in CTR
mode (which applies the block encryption to the counter blocks) with a
64-bit counter starting at 0 after the nonce. -/
def decrypt_mqa_file (aesDec aesEnc : Bytes → Bytes → Bytes)
    (b64decode : String → Bytes) (encryption_key : String)
    (in_file : Bytes) : Bytes :=
  let master_key := b64decode MASTER_KEY_B64
  let security_token := b64decode encryption_key
  let iv := security_token.take 16
  let encrypted_st := security_token.drop 16
  let decrypted_st := cbcDecrypt (aesDec master_key) 15 iv encrypted_st
  let key := decrypted_st.take 16
  let nonce := (decrypted_st.drop 16).take 8
  ctrCrypt (aesEnc key) nonce in_file

/-- Classification of errors as one of the spec's quality-lookup error
classes (InvalidQuality or InvalidSourceError). -/
def PyError.isClassified : PyError → Bool
  | .invalidQuality _ => true
  | .invalidSourceError _ => true
  | _ => false

/-- C6: the provider quality tables match the spec exactly, with their
differing index bases preserved: quality 2 maps to 6 for qobuz (keyed
1..4), to the pair (1, "FLAC") for deezer (keyed 0..2), and to "LOSSLESS"
for tidal (keyed 0..3). -/
theorem quality_tables_match :
    get_quality 2 "qobuz" = .ok (.int 6) ∧
    get_quality 2 "deezer" = .ok (.pair 1 "FLAC") ∧
    get_quality 2 "tidal" = .ok (.str "LOSSLESS") ∧
    (∀ q : Int, (get_quality q "qobuz").isOk = true ↔ 1 ≤ q ∧ q ≤ 4) ∧
    (∀ q : Int, (get_quality q "deezer").isOk = true ↔ 0 ≤ q ∧ q ≤ 2) ∧
    (∀ q : Int, (get_quality q "tidal").isOk = true ↔ 0 ≤ q ∧ q ≤ 3) := by
  refine ⟨rfl, rfl, rfl, ?_, ?_, ?_⟩ <;> intro q <;>
    simp only [get_quality, QUALITY_MAP] <;> split_ifs <;>
    simp_all [Except.isOk, Except.toBool] <;> omega

/-- C7 counterexample: a missing id entry under a present provider makes
`get_quality` raise the unclassified Python KeyError, not InvalidQuality
or InvalidSourceError as the claim states. -/
theorem get_quality_keyError_counterexample :
    get_quality 5 "qobuz" = .error .keyError ∧
    PyError.isClassified .keyError = false := by
  exact ⟨rfl, rfl⟩

/-- C7 amended: for every provider tag not in the quality table, and for
every quality id with no entry under a present provider, `get_quality`
fails with the unclassified KeyError of a plain dict lookup. -/
theorem get_quality_missing_raises_keyError :
    (∀ (q : Int) (s : String),
        s ∉ (["qobuz", "deezer", "tidal"] : List String) →
        get_quality q s = .error .keyError) ∧
    (∀ q : Int, q < 1 ∨ 4 < q → get_quality q "qobuz" = .error .keyError) ∧
    (∀ q : Int, q < 0 ∨ 2 < q → get_quality q "deezer" = .error .keyError) ∧
    (∀ q : Int, q < 0 ∨ 3 < q → get_quality q "tidal" = .error .keyError) := by
  refine ⟨?_, ?_, ?_, ?_⟩
  · intro q s hs
    simp only [List.mem_cons, List.mem_singleton, not_or] at hs
    simp [get_quality, QUALITY_MAP, hs.1, hs.2.1, hs.2.2.1]
  all_goals
    intro q hq
    rcases hq with hq | hq <;>
      (simp only [get_quality, QUALITY_MAP]; split_ifs <;>
        first | rfl | omega | simp_all)

/-- C7 witness: the amended statement applied at a concrete unknown
provider. -/
theorem get_quality_missing_raises_keyError_witness :
    get_quality 2 "spotify" = .error .keyError ∧
    get_quality 5 "qobuz" = .error .keyError :=
  ⟨get_quality_missing_raises_keyError.1 2 "spotify" (by decide),
    get_quality_missing_raises_keyError.2.1 5 (by omega)⟩

/-- C5 counterexample: at bit depth 20 (with a sampling rate present)
`get_quality_id` returns Python None by falling off the end of the
function; it does not raise any error, InvalidBitDepth or otherwise. -/
theorem get_quality_id_no_error_counterexample :
    get_quality_id (some 20) (some 44100) = none := by
  exact rfl

/-- C5 amended: `get_quality_id` returns 1 when either input is absent, 2
when bit depth is 16, 3 when bit depth is 24 and the sampling rate is at
most 96, 4 when bit depth is 24 and the sampling rate exceeds 96, and for
every other bit depth it returns no value (Python None) instead of
raising an error. -/
theorem get_quality_id_cases :
    (∀ sr, get_quality_id none sr = some 1) ∧
    (∀ bd, get_quality_id bd none = some 1) ∧
    (∀ sr : Int, get_quality_id (some 16) (some sr) = some 2) ∧
    (∀ sr : Int, sr ≤ 96 → get_quality_id (some 24) (some sr) = some 3) ∧
    (∀ sr : Int, 96 < sr → get_quality_id (some 24) (some sr) = some 4) ∧
    (∀ bd sr : Int, bd ≠ 16 → bd ≠ 24 →
        get_quality_id (some bd) (some sr) = none) := by
  refine ⟨?_, ?_, ?_, ?_, ?_, ?_⟩
  · intro sr; cases sr <;> rfl
  · intro bd; cases bd <;> rfl
  · intro sr; rfl
  · intro sr h; simp [get_quality_id, h]
  · intro sr h; simp [get_quality_id, not_le.mpr h]
  · intro bd sr h16 h24; simp [get_quality_id, h16, h24]

/-- C5 witness: the amended statement applied at concrete inputs,
including the fall-through bit depth 20. -/
theorem get_quality_id_cases_witness :
    get_quality_id (some 24) (some 96) = some 3 ∧
    get_quality_id (some 20) (some 44100) = none :=
  ⟨get_quality_id_cases.2.2.2.1 96 (by omega),
    get_quality_id_cases.2.2.2.2.2 20 44100 (by omega) (by omega)⟩

/-- C8: composing `get_stats_from_quality` after `get_quality_id`
reproduces (16, 44100) when the intermediate id is 2, (24, 96000) when it
is 3, (24, 192000) when it is 4, and (absent, absent) when it is at most
1; `get_stats_from_quality` raises InvalidQuality for ids above 4 and
returns (absent, absent) for all ids at most 1. -/
theorem stats_quality_roundtrip :
    (∀ bd sr q, get_quality_id bd sr = some q →
      (q = 2 → get_stats_from_quality q = .ok (some 16, some 44100)) ∧
      (q = 3 → get_stats_from_quality q = .ok (some 24, some 96000)) ∧
      (q = 4 → get_stats_from_quality q = .ok (some 24, some 192000)) ∧
      (q ≤ 1 → get_stats_from_quality q = .ok (none, none))) ∧
    (∀ q : Int, 4 < q →
      get_stats_from_quality q = .error (.invalidQuality q)) ∧
    (∀ q : Int, q ≤ 1 → get_stats_from_quality q = .ok (none, none)) := by
  refine ⟨?_, ?_, ?_⟩
  · rintro bd sr q -
    refine ⟨?_, ?_, ?_, ?_⟩ <;> intro hq
    · subst hq; rfl
    · subst hq; rfl
    · subst hq; rfl
    · simp [get_stats_from_quality, hq]
  · intro q hq
    simp only [get_stats_from_quality]
    split_ifs <;> first | rfl | omega
  · intro q hq; simp [get_stats_from_quality, hq]

/-- C8 witness: the round trip applied at concrete specs for each id, and
the InvalidQuality case at id 7. -/
theorem stats_quality_roundtrip_witness :
    get_stats_from_quality 2 = .ok (some 16, some 44100) ∧
    get_stats_from_quality 7 = .error (.invalidQuality 7) :=
  ⟨(stats_quality_roundtrip.1 (some 16) (some 44100) 2 rfl).1 rfl,
    stats_quality_roundtrip.2.1 7 (by omega)⟩

/-- C10: `ext` and `get_container` are total over all quality ids and
provider strings, always returning one of the fixed values; any provider
other than "tidal" is treated as the MP3-native provider at quality at
most 1, in contrast to the quality-table lookup, which fails on unknown
providers. -/
theorem ext_container_total :
    (∀ (q : Int) (s : String),
      (ext q s = ".m4a" ∨ ext q s = ".mp3" ∨ ext q s = ".flac") ∧
      (get_container q s = "FLAC" ∨ get_container q s = "AAC" ∨
        get_container q s = "MP3")) ∧
    (∀ (q : Int) (s : String), s ≠ "tidal" → q ≤ 1 →
      ext q s = ".mp3" ∧ get_container q s = "MP3") ∧
    (∀ (q : Int) (s : String),
      s ∉ (["qobuz", "deezer", "tidal"] : List String) →
      get_quality q s = .error .keyError) := by
  refine ⟨?_, ?_, ?_⟩
  · intro q s
    refine ⟨?_, ?_⟩ <;> (simp only [ext, get_container]; split_ifs <;> tauto)
  · intro q s hs hq
    have h2 : ¬2 ≤ q := by omega
    simp [ext, get_container, hs, hq, h2]
  · intro q s hs
    simp only [List.mem_cons, List.mem_singleton, not_or] at hs
    simp [get_quality, QUALITY_MAP, hs.1, hs.2.1, hs.2.2.1]

/-- C10 witness: totality and the MP3 default applied at a concrete
unrecognized provider. -/
theorem ext_container_total_witness :
    ext 1 "soundcloud" = ".mp3" ∧ get_container 1 "soundcloud" = "MP3" ∧
    get_quality 1 "soundcloud" = .error .keyError :=
  ⟨(ext_container_total.2.1 1 "soundcloud" (by decide) (by omega)).1,
    (ext_container_total.2.1 1 "soundcloud" (by decide) (by omega)).2,
    ext_container_total.2.2 1 "soundcloud" (by decide)⟩

/-- C4 counterexample: a transfer with declared content length 0 whose URL
ends in "jpg" is not failed by `tqdm_download`: the zero-length check is
skipped for image URLs, the (empty) stream is written to the destination,
and no error propagates. -/
theorem tqdm_download_image_counterexample :
    tqdm_download "cover.jpg" 0 none [] none = (some [], none) := by
  decide

/-- C4 amended: for a transfer with declared content length 0,
`DownloadStream.__init__` raises a bare NonStreamable (carrying no
message) before any chunk is handed out, and `tqdm_download` — provided
the URL does not end in "jpg" or "png" — raises before writing anything:
NonStreamable with the provider's error text when the body parses as an
error payload, NonStreamable "Resource not found." when the body is not
JSON, and an unclassified KeyError when the body is JSON without an
"error" field. -/
theorem zero_length_raises_nonstreamable (url : String)
    (body : Option (Option String)) (chunks : List Bytes)
    (failure : Option PyError)
    (hjpg : endsWithB url "jpg" = false) (hpng : endsWithB url "png" = false) :
    downloadStream_init 0 = .error (.nonStreamable none) ∧
    (tqdm_download url 0 body chunks failure).1 = none ∧
    (∀ m, body = some (some m) →
      (tqdm_download url 0 body chunks failure).2 =
        some (.nonStreamable (some m))) ∧
    (body = none →
      (tqdm_download url 0 body chunks failure).2 =
        some (.nonStreamable (some "Resource not found."))) ∧
    (body = some none →
      (tqdm_download url 0 body chunks failure).2 = some .keyError) := by
  refine ⟨rfl, ?_, ?_, ?_, ?_⟩
  · simp only [tqdm_download, hjpg, hpng]
    rcases body with - | b
    · rfl
    · rcases b with - | - <;> rfl
  · rintro m rfl; simp [tqdm_download, hjpg, hpng]
  · rintro rfl; simp [tqdm_download, hjpg, hpng]
  · rintro rfl; simp [tqdm_download, hjpg, hpng]

/-- C4 witness: the amended statement applied to a concrete non-image URL
with a non-JSON body. -/
theorem zero_length_raises_nonstreamable_witness :
    downloadStream_init 0 = .error (.nonStreamable none) ∧
    (tqdm_download "track.flac" 0 none [] none).2 =
      some (.nonStreamable (some "Resource not found.")) :=
  ⟨(zero_length_raises_nonstreamable "track.flac" none [] none
      (by decide) (by decide)).1,
    (zero_length_raises_nonstreamable "track.flac" none [] none
      (by decide) (by decide)).2.2.2.1 rfl⟩

/-- C9: download atomicity — whenever `tqdm_download` propagates an error
after bytes have been delivered for writing, no file remains at the
destination path (the partially written file is removed before the error
propagates). -/
theorem tqdm_download_no_partial_file (url : String) (content_length : Nat)
    (body : Option (Option String)) (chunks : List Bytes)
    (failure : Option PyError) (e : PyError)
    (herr : (tqdm_download url content_length body chunks failure).2 = some e)
    (hbytes : 0 < chunks.flatten.length) :
    (tqdm_download url content_length body chunks failure).1 = none := by
  have _keep := hbytes
  simp only [tqdm_download] at herr ⊢
  split at herr <;> split_ifs <;> simp_all
  · rcases body with - | b
    · simp
    · rcases b with - | - <;> simp
  · rcases failure with - | f <;> simp_all

/-- C9 witness: the atomicity statement applied to a concrete failing
transfer that delivered two bytes before the error. -/
theorem tqdm_download_no_partial_file_witness :
    (tqdm_download "u" 2000 none [[1, 2]] (some .keyError)).1 = none :=
  tqdm_download_no_partial_file "u" 2000 none [[1, 2]] (some .keyError)
    .keyError (by decide) (by decide)

theorem zipWith3_length (f : α → β → γ → δ) :
    ∀ (as : List α) (bs : List β) (cs : List γ),
      (zipWith3 f as bs cs).length =
        min as.length (min bs.length cs.length)
  | [], _, _ => by cases ‹List β› <;> cases ‹List γ› <;> simp [zipWith3]
  | _ :: _, [], _ => by simp [zipWith3]
  | _ :: _, _ :: _, [] => by simp [zipWith3]
  | a :: as, b :: bs, c :: cs => by
    simp only [zipWith3, List.length_cons, zipWith3_length f as bs cs]
    omega

theorem zipWith3_getD (f : α → β → γ → δ) :
    ∀ (as : List α) (bs : List β) (cs : List γ) (i : Nat)
      (d : δ) (da : α) (db : β) (dc : γ),
      i < as.length → i < bs.length → i < cs.length →
      (zipWith3 f as bs cs).getD i d = f (as.getD i da) (bs.getD i db) (cs.getD i dc)
  | a :: as, b :: bs, c :: cs, 0, _, _, _, _, _, _, _ => rfl
  | a :: as, b :: bs, c :: cs, i + 1, d, da, db, dc, ha, hb, hc => by
    simpa [zipWith3, List.getD] using
      zipWith3_getD f as bs cs i d da db dc
        (by simpa using ha) (by simpa using hb) (by simpa using hc)

theorem zipWith3_mem (f : α → β → γ → δ) :
    ∀ (as : List α) (bs : List β) (cs : List γ) (x : δ),
      x ∈ zipWith3 f as bs cs →
      ∃ a b c, a ∈ as ∧ b ∈ bs ∧ c ∈ cs ∧ x = f a b c
  | a :: as, b :: bs, c :: cs, x, hx => by
    rcases List.mem_cons.1 hx with h | h
    · exact ⟨a, b, c, List.mem_cons_self .., List.mem_cons_self ..,
        List.mem_cons_self .., h⟩
    · obtain ⟨a', b', c', ha, hb, hc, hx'⟩ := zipWith3_mem f as bs cs x h
      exact ⟨a', b', c', List.mem_cons_of_mem _ ha,
        List.mem_cons_of_mem _ hb, List.mem_cons_of_mem _ hc, hx'⟩

theorem strEncode_of_ascii :
    ∀ codes : List Nat, (∀ c ∈ codes, c < 128) → strEncode codes = codes
  | [], _ => rfl
  | c :: cs, h => by
    have hc : c < 128 := h c (List.mem_cons_self ..)
    have ih := strEncode_of_ascii cs fun x hx => h x (List.mem_cons_of_mem _ hx)
    simp only [strEncode, List.map_cons, List.flatten_cons] at ih ⊢
    rw [ih, utf8Encode1, if_pos hc]
    rfl

theorem zipXor_length (a b : Bytes) :
    (zipXor a b).length = min a.length b.length :=
  List.length_zipWith ..

theorem zipXor_zipXor_right :
    ∀ b k : Bytes, b.length ≤ k.length → zipXor (zipXor b k) k = b
  | [], _, _ => rfl
  | x :: xs, y :: ys, h => by
    simp only [zipXor, List.zipWith_cons_cons]
    rw [Nat.xor_cancel_right y x]
    have := zipXor_zipXor_right xs ys (by simpa using h)
    simp only [zipXor] at this
    rw [this]

theorem chunksGo_congr (n : Nat) (f1 : Nat) :
    ∀ (l : List α) (f2 : Nat), l.length ≤ f1 → l.length ≤ f2 →
      chunksGo n f1 l = chunksGo n f2 l := by
  induction f1 with
  | zero =>
    intro l f2 h1 _
    have hl : l = [] := List.eq_nil_of_length_eq_zero (Nat.le_zero.mp h1)
    subst hl
    cases f2 <;> rfl
  | succ f ih =>
    intro l f2 h1 h2
    cases l with
    | nil => cases f2 <;> rfl
    | cons a t =>
      cases f2 with
      | zero => simp at h2
      | succ g =>
        simp only [chunksGo]
        congr 1
        apply ih
        · simp only [List.length_drop, List.length_cons] at h1 ⊢; omega
        · simp only [List.length_drop, List.length_cons] at h2 ⊢; omega

theorem chunksPos_cons (n : Nat) (l : List α) (hne : l ≠ []) :
    chunksPos n l = l.take (n + 1) :: chunksPos n (l.drop (n + 1)) := by
  cases l with
  | nil => exact absurd rfl hne
  | cons a t =>
    simp only [chunksPos, List.length_cons]
    simp only [chunksGo]
    congr 1
    apply chunksGo_congr
    · simp only [List.length_drop, List.length_cons]; omega
    · exact le_rfl

theorem chunksGo_flatten (n : Nat) (fuel : Nat) :
    ∀ l : List α, l.length ≤ fuel → (chunksGo n fuel l).flatten = l := by
  induction fuel with
  | zero =>
    intro l h
    have hl : l = [] := List.eq_nil_of_length_eq_zero (Nat.le_zero.mp h)
    subst hl; rfl
  | succ f ih =>
    intro l h
    cases l with
    | nil => rfl
    | cons a t =>
      simp only [chunksGo, List.flatten_cons]
      rw [ih _ (by simp only [List.length_drop, List.length_cons] at h ⊢; omega)]
      exact List.take_append_drop _ _

theorem chunksPos_flatten (n : Nat) (l : List α) :
    (chunksPos n l).flatten = l :=
  chunksGo_flatten n l.length l le_rfl

theorem chunkShaped_chunksGo (n : Nat) (fuel : Nat) :
    ∀ l : List α, l.length ≤ fuel → chunkShaped n (chunksGo n fuel l) := by
  induction fuel with
  | zero =>
    intro l h
    have hl : l = [] := List.eq_nil_of_length_eq_zero (Nat.le_zero.mp h)
    subst hl; trivial
  | succ f ih =>
    intro l h
    cases l with
    | nil => trivial
    | cons a t =>
      simp only [chunksGo, chunkShaped]
      refine ⟨by simp [List.take_succ_cons], by simp [List.length_take], ?_⟩
      by_cases hlen : (a :: t).length ≤ n + 1
      · left
        rw [List.drop_eq_nil_of_le hlen]
        cases f <;> rfl
      · right
        constructor
        · simp only [List.length_take]
          simp only [List.length_cons] at hlen ⊢; omega
        · exact ih _ (by
            simp only [List.length_drop, List.length_cons] at h ⊢; omega)

theorem chunkShaped_chunksPos (n : Nat) (l : List α) :
    chunkShaped n (chunksPos n l) :=
  chunkShaped_chunksGo n l.length l le_rfl

theorem chunkShaped_le (n : Nat) :
    ∀ bs : List (List α), chunkShaped n bs → ∀ b ∈ bs, b.length ≤ n + 1
  | [], _, b, hb => absurd hb (List.not_mem_nil b)
  | x :: xs, ⟨_, hle, hrest⟩, b, hb => by
    rcases List.mem_cons.1 hb with rfl | hb'
    · exact hle
    · rcases hrest with rfl | ⟨-, hsh⟩
      · exact absurd hb' (List.not_mem_nil b)
      · exact chunkShaped_le n xs hsh b hb'

theorem chunksPos_of_chunkShaped (n : Nat) :
    ∀ bs : List (List α), chunkShaped n bs → chunksPos n bs.flatten = bs
  | [], _ => rfl
  | b :: bs, ⟨hne, hle, hrest⟩ => by
    rcases hrest with rfl | ⟨hfull, hsh⟩
    · simp only [List.flatten_cons, List.flatten_nil, List.append_nil]
      rw [chunksPos_cons n b hne, List.take_of_length_le hle,
        List.drop_eq_nil_of_le hle]
      rfl
    · have hbne : b ++ bs.flatten ≠ [] := by
        cases b
        · exact absurd rfl hne
        · simp
      rw [List.flatten_cons, chunksPos_cons n _ hbne, List.take_left' hfull,
        List.drop_left' hfull, chunksPos_of_chunkShaped n bs hsh]

theorem chunkShaped_ctrBlocks (E : Bytes → Bytes)
    (hE : ∀ x, (E x).length = x.length) (nonce : Bytes)
    (hn : nonce.length = 8) :
    ∀ (bs : List Bytes) (c : Nat), chunkShaped 15 bs →
      chunkShaped 15 (ctrBlocks E nonce c bs)
  | [], _, _ => trivial
  | b :: bs, c, ⟨hne, hle, hrest⟩ => by
    have hks : (E (nonce ++ be64 c)).length = 16 := by
      rw [hE]; simp [be64, hn]
    have hblen : (zipXor b (E (nonce ++ be64 c))).length = b.length := by
      rw [zipXor_length, hks]; omega
    simp only [ctrBlocks, chunkShaped]
    refine ⟨?_, ?_, ?_⟩
    · intro hcon
      apply hne
      have hl := congrArg List.length hcon
      rw [hblen] at hl
      exact List.eq_nil_of_length_eq_zero hl
    · rw [hblen]; exact hle
    · rcases hrest with rfl | ⟨hfull, hsh⟩
      · left; rfl
      · right
        exact ⟨by rw [hblen]; exact hfull,
          chunkShaped_ctrBlocks E hE nonce hn bs (c + 1) hsh⟩

theorem ctrBlocks_ctrBlocks (E : Bytes → Bytes)
    (hE : ∀ x, (E x).length = x.length) (nonce : Bytes)
    (hn : nonce.length = 8) :
    ∀ (bs : List Bytes) (c : Nat), (∀ b ∈ bs, b.length ≤ 16) →
      ctrBlocks E nonce c (ctrBlocks E nonce c bs) = bs
  | [], _, _ => rfl
  | b :: bs, c, h => by
    have hks : (E (nonce ++ be64 c)).length = 16 := by
      rw [hE]; simp [be64, hn]
    simp only [ctrBlocks]
    rw [zipXor_zipXor_right b _
        (by rw [hks]; exact h b (List.mem_cons_self ..)),
      ctrBlocks_ctrBlocks E hE nonce hn bs (c + 1)
        (fun x hx => h x (List.mem_cons_of_mem _ hx))]

theorem ctrCrypt_ctrCrypt (E : Bytes → Bytes)
    (hE : ∀ x, (E x).length = x.length) (nonce : Bytes)
    (hn : nonce.length = 8) (p : Bytes) :
    ctrCrypt E nonce (ctrCrypt E nonce p) = p := by
  have h1 : chunkShaped 15 (chunksPos 15 p) := chunkShaped_chunksPos 15 p
  have h2 := chunkShaped_ctrBlocks E hE nonce hn (chunksPos 15 p) 0 h1
  simp only [ctrCrypt]
  rw [chunksPos_of_chunkShaped 15 _ h2,
    ctrBlocks_ctrBlocks E hE nonce hn _ 0 (chunkShaped_le 15 _ h1)]
  exact chunksPos_flatten 15 p

/-- C2: for every item identifier, the derived chunk-decryption key is
exactly 16 bytes, byte i being the XOR of the character codes of the i-th
character of the first 16 hex characters of the MD5 hex digest, of the
i-th character of the second 16, and of the i-th character of the fixed
16-character secret; the derivation is deterministic.  `md5hex` is the
external MD5 hex-digest primitive; the hypotheses record that an MD5 hex
digest has 32 characters, all ASCII. -/
theorem blowfish_key_derivation (md5hex : String → String) (track_id : String)
    (hlen : (md5hex track_id).length = 32)
    (hascii : ∀ c ∈ (md5hex track_id).data, c.toNat < 128) :
    (generate_blowfish_key md5hex track_id).length = 16 ∧
    (∀ i, i < 16 →
      (generate_blowfish_key md5hex track_id).getD i 0 =
        ((md5hex track_id).data.getD i 'x').toNat ^^^
        ((md5hex track_id).data.getD (16 + i) 'x').toNat ^^^
        ("g4el58wc0zvf9na1".data.getD i 'x').toNat) ∧
    generate_blowfish_key md5hex track_id =
      generate_blowfish_key md5hex track_id := by
  have hdlen : (md5hex track_id).data.length = 32 := hlen
  have hsec : ∀ c ∈ "g4el58wc0zvf9na1".data, c.toNat < 128 := by decide
  have hseclen : "g4el58wc0zvf9na1".data.length = 16 := by decide
  have hcodes : ∀ x ∈ zipWith3 (fun a b c => a.toNat ^^^ b.toNat ^^^ c.toNat)
      ((md5hex track_id).data.take 16) ((md5hex track_id).data.drop 16)
      "g4el58wc0zvf9na1".data, x < 128 := by
    intro x hx
    obtain ⟨a, b, c, ha, hb, hc, rfl⟩ := zipWith3_mem _ _ _ _ _ hx
    have ha' : a.toNat < 2 ^ 7 := hascii a (List.take_subset _ _ ha)
    have hb' : b.toNat < 2 ^ 7 := hascii b (List.drop_subset _ _ hb)
    have hc' : c.toNat < 2 ^ 7 := hsec c hc
    exact Nat.xor_lt_two_pow (Nat.xor_lt_two_pow ha' hb') hc'
  have hkey : generate_blowfish_key md5hex track_id =
      zipWith3 (fun a b c => a.toNat ^^^ b.toNat ^^^ c.toNat)
        ((md5hex track_id).data.take 16) ((md5hex track_id).data.drop 16)
        "g4el58wc0zvf9na1".data := by
    simp only [generate_blowfish_key]
    exact strEncode_of_ascii _ hcodes
  refine ⟨?_, ?_, rfl⟩
  · rw [hkey, zipWith3_length]
    simp [hdlen, hseclen]
  · intro i hi
    rw [hkey, zipWith3_getD _ _ _ _ _ _ 'x' 'x' 'x']
    · have h1 : ((md5hex track_id).data.take 16).getD i 'x' =
          (md5hex track_id).data.getD i 'x' := by
        simp [List.getD_eq_getElem?_getD, List.getElem?_take, hi]
      have h2 : ((md5hex track_id).data.drop 16).getD i 'x' =
          (md5hex track_id).data.getD (16 + i) 'x' := by
        simp [List.getD_eq_getElem?_getD, List.getElem?_drop]
      rw [h1, h2]
    · simpa [hdlen] using hi
    · simpa [hdlen] using hi
    · simpa [hseclen] using hi

/-- C2 witness: the key-shape statement applied to a concrete 32-character
hex digest. -/
theorem blowfish_key_derivation_witness :
    (generate_blowfish_key (fun _ => "0123456789abcdef0123456789abcdef")
      "1").length = 16 :=
  (blowfish_key_derivation (fun _ => "0123456789abcdef0123456789abcdef") "1"
    (by decide) (by decide)).1

/-- C1: for a deobfuscation-eligible stream (source tag "deezer" and
resolved URL containing the obfuscation marker "/mobile/" or "/media/"),
the iteration maps every received chunk of length at least 2048 to the
Blowfish-CBC decryption — fresh cipher per chunk, fixed 8-byte IV
0,1,2,3,4,5,6,7 — of its first 2048 bytes under the derived key,
concatenated with its unmodified tail; every shorter chunk passes through
byte-identical; and when the activation predicate is false the iteration
is the identity on the raw chunks.  `bfDec` is the external Blowfish
block primitive and `md5hex` the external MD5 hex digest. -/
theorem download_stream_deobfuscation (bfDec : Bytes → Bytes → Bytes)
    (md5hex : String → String) (source : Option String) (url : String)
    (item_id : String) (chunks : List Bytes) :
    (source = some "deezer" → is_encrypted url = true →
      (downloadStream_iter bfDec md5hex source url item_id chunks).length =
          chunks.length ∧
      ∀ i, i < chunks.length →
        (downloadStream_iter bfDec md5hex source url item_id chunks).getD i []
          = if 2048 ≤ (chunks.getD i []).length then
              cbcDecrypt (bfDec (generate_blowfish_key md5hex item_id)) 7
                  [0, 1, 2, 3, 4, 5, 6, 7] ((chunks.getD i []).take 2048) ++
                (chunks.getD i []).drop 2048
            else chunks.getD i []) ∧
    (¬(source = some "deezer" ∧ is_encrypted url = true) →
      downloadStream_iter bfDec md5hex source url item_id chunks = chunks) := by
  constructor
  · intro hs he
    rw [downloadStream_iter, if_pos ⟨hs, he⟩]
    refine ⟨List.length_map .., ?_⟩
    intro i hi
    simp only [List.getD_eq_getElem?_getD, List.getElem?_map,
      List.getElem?_eq_getElem hi]
    rfl
  · intro hn
    rw [downloadStream_iter, if_neg hn]

/-- C1 witness: the chunk transform applied to a concrete eligible stream
(a short chunk passes through identically) and to a non-eligible source
(identity on the raw chunks). -/
theorem download_stream_deobfuscation_witness :
    (downloadStream_iter (fun _ d => d) (fun _ => "") (some "deezer")
        "https://cdn.example/media/track" "7" [[1, 2, 3]]).getD 0 []
      = [1, 2, 3] ∧
    downloadStream_iter (fun _ d => d) (fun _ => "") (some "qobuz")
        "https://cdn.example/media/track" "7" [[1, 2, 3]] = [[1, 2, 3]] := by
  constructor
  · have h := (download_stream_deobfuscation (fun _ d => d) (fun _ => "")
      (some "deezer") "https://cdn.example/media/track" "7" [[1, 2, 3]]).1
      rfl (by decide)
    simpa using h.2 0 (by decide)
  · exact (download_stream_deobfuscation (fun _ d => d) (fun _ => "")
      (some "qobuz") "https://cdn.example/media/track" "7" [[1, 2, 3]]).2
      (by simp)

/-- C3: PostDecryptor round trip — for every plaintext and every
well-formed token (an AES-CBC encryption, under the decoded embedded
master key with a 16-byte IV prepended, of the 24-byte blob made of a
16-byte content key followed by an 8-byte nonce), if the file content is
CTR-encrypted under the content key with a 64-bit counter whose fixed
leading half is the nonce and whose initial value is 0, then
`decrypt_mqa_file` applied to the encrypted file and the token recovers
the original plaintext bit-exactly.  `aesEnc`/`aesDec` are the external
AES block primitives (mutually inverse and length-preserving) and
`b64decode` the external base64 decoder. -/
theorem decrypt_mqa_roundtrip (aesEnc aesDec : Bytes → Bytes → Bytes)
    (b64decode : String → Bytes)
    (hInv : ∀ k x, aesDec k (aesEnc k x) = x)
    (hLen : ∀ k x, (aesEnc k x).length = x.length)
    (token : String) (ckey nonce iv plaintext : Bytes)
    (hck : ckey.length = 16) (hn : nonce.length = 8) (hiv : iv.length = 16)
    (htok : b64decode token =
      iv ++ cbcEncrypt (aesEnc (b64decode MASTER_KEY_B64)) 15 iv
        (ckey ++ nonce)) :
    decrypt_mqa_file aesDec aesEnc b64decode token
      (ctrCrypt (aesEnc ckey) nonce plaintext) = plaintext := by
  have hnne : nonce ≠ [] := by
    intro h; rw [h] at hn; simp at hn
  have hblobne : ckey ++ nonce ≠ [] := by
    intro h
    have hl := congrArg List.length h
    rw [List.length_append, hck, hn] at hl
    simp at hl
  have hblob : chunksPos 15 (ckey ++ nonce) = [ckey, nonce] := by
    rw [chunksPos_cons 15 _ hblobne, List.take_left' hck, List.drop_left' hck,
      chunksPos_cons 15 nonce hnne,
      List.take_of_length_le (by rw [hn]; omega),
      List.drop_eq_nil_of_le (by rw [hn]; omega)]
    rfl
  set mk := b64decode MASTER_KEY_B64 with hmk
  have hcbc : cbcEncrypt (aesEnc mk) 15 iv (ckey ++ nonce) =
      aesEnc mk (zipXor ckey iv) ++
        aesEnc mk (zipXor nonce (aesEnc mk (zipXor ckey iv))) := by
    rw [cbcEncrypt, hblob]
    simp [cbcEncryptBlocks]
  set c0 := aesEnc mk (zipXor ckey iv) with hc0
  set c1 := aesEnc mk (zipXor nonce c0) with hc1
  have hc0len : c0.length = 16 := by
    rw [hc0, hLen, zipXor_length, hck, hiv]; omega
  have hc1len : c1.length = 8 := by
    rw [hc1, hLen, zipXor_length, hn, hc0len]; omega
  have hctne : c0 ++ c1 ≠ [] := by
    intro h
    have hl := congrArg List.length h
    rw [List.length_append, hc0len, hc1len] at hl
    simp at hl
  have hc1ne : c1 ≠ [] := by
    intro h; rw [h] at hc1len; simp at hc1len
  have hct : chunksPos 15 (c0 ++ c1) = [c0, c1] := by
    rw [chunksPos_cons 15 _ hctne, List.take_left' hc0len,
      List.drop_left' hc0len, chunksPos_cons 15 c1 hc1ne,
      List.take_of_length_le (by rw [hc1len]; omega),
      List.drop_eq_nil_of_le (by rw [hc1len]; omega)]
    rfl
  have hd0 : aesDec mk c0 = zipXor ckey iv := by
    rw [hc0]; exact hInv mk _
  have hd1 : aesDec mk c1 = zipXor nonce c0 := by
    rw [hc1]; exact hInv mk _
  simp only [decrypt_mqa_file]
  rw [← hmk, htok, hcbc]
  rw [List.take_left' hiv, List.drop_left' hiv]
  rw [cbcDecrypt, hct]
  simp only [cbcDecryptBlocks]
  rw [hd0, hd1,
    zipXor_zipXor_right ckey iv (by rw [hck, hiv]),
    zipXor_zipXor_right nonce c0 (by rw [hn, hc0len]; omega)]
  simp only [List.flatten_cons, List.flatten_nil, List.append_nil]
  rw [List.take_left' hck, List.drop_left' hck,
    List.take_of_length_le (le_of_eq hn)]
  exact ctrCrypt_ctrCrypt (aesEnc ckey) (fun x => hLen ckey x) nonce hn
    plaintext

/-- C3 witness: the round trip applied with the identity block primitive,
an all-zero key, nonce and IV, and the one-byte plaintext 5. -/
theorem decrypt_mqa_roundtrip_witness :
    decrypt_mqa_file (fun _ x => x) (fun _ x => x)
        (fun s => if s = "tok" then List.replicate 40 0 else []) "tok"
        (ctrCrypt (fun x => x) (List.replicate 8 0) [5]) = [5] :=
  decrypt_mqa_roundtrip (fun _ x => x) (fun _ x => x)
    (fun s => if s = "tok" then List.replicate 40 0 else [])
    (fun _ _ => rfl) (fun _ _ => rfl) "tok"
    (List.replicate 16 0) (List.replicate 8 0) (List.replicate 16 0) [5]
    (by decide) (by decide) (by decide) (by decide)

end Streamrip
